import Mathlib

/-!
Verification of the LDAP user query-translation layer
(`server/src/domain/ldap/user.rs`): filter translation
(`convert_user_filter`), attribute projection (`get_user_attribute`,
`make_ldap_search_user_result_entry`) and wildcard expansion.

Byte sequences (`Vec<u8>` values produced by `into_bytes`) are modelled as
`String`: every value the code emits is the UTF-8 encoding of a string, so
string equality coincides with byte equality.  Helper functions that live
outside the provided source file (`map_user_field`, the distinguished-name
parsers, `get_custom_attribute`, `expand_attribute_wildcards`, the boolean
filter constants) are modelled from the specification; each such definition
says so in its doc comment.
-/

set_option autoImplicit false
set_option linter.unusedVariables false

/-- ASCII lower-casing of a single character, as performed by Rust's
`to_ascii_lowercase`: the letters A-Z map to a-z, everything else is
unchanged.  Core's `Char.toLower` implements exactly this (it only works
on basic latin letters). -/
def asciiLowerChar (c : Char) : Char :=
  c.toLower

/-- ASCII lower-casing of a string (Rust `str::to_ascii_lowercase`). -/
def asciiLower (s : String) : String :=
  ⟨s.data.map asciiLowerChar⟩

/-- The closed enumeration of primary (non-custom) user columns
(`UserColumn` in `domain/types.rs`, fixed by the backend contract per the
data model: user id, email, display name, creation date, uuid). -/
inductive UserColumn where
  | UserId
  | Email
  | DisplayName
  | CreationDate
  | Uuid
deriving DecidableEq, Repr

/-- Classification of a wire field name (`UserFieldType` in
`domain/ldap/utils.rs`): a primary field, a named custom attribute, or no
match. -/
inductive UserFieldType where
  | PrimaryField (column : UserColumn)
  | Attribute (name : String)
  | NoMatch
deriving DecidableEq, Repr

/-- Whether the classification is `NoMatch` (the Rust
`matches!(_, UserFieldType::NoMatch)` test). -/
def UserFieldType.isNoMatch : UserFieldType → Bool
  | .NoMatch => true
  | _ => false

/-- Modelled from the spec: `map_user_field` lives in
`domain/ldap/utils.rs`, outside the provided source.  It classifies an
(already lower-cased) wire field name into exactly one `UserFieldType`;
the alias sets follow the spec's per-attribute resolution table and data
model.  `dn`/`distinguishedname` are deliberately not mapped: the presence
check in the source tests them separately, which would be redundant if the
mapping recognized them. -/
def map_user_field (field : String) : UserFieldType :=
  if field = "uid" ∨ field = "user_id" ∨ field = "id" then
    .PrimaryField .UserId
  else if field = "mail" ∨ field = "email" then
    .PrimaryField .Email
  else if field = "cn" ∨ field = "displayname" ∨ field = "display_name" then
    .PrimaryField .DisplayName
  else if field = "givenname" ∨ field = "first_name" ∨ field = "firstname" then
    .Attribute "first_name"
  else if field = "sn" ∨ field = "last_name" ∨ field = "lastname" then
    .Attribute "last_name"
  else if field = "jpegphoto" ∨ field = "avatar" then
    .Attribute "avatar"
  else if field = "creationdate" ∨ field = "creation_date" ∨
      field = "createtimestamp" ∨ field = "modifytimestamp" then
    .PrimaryField .CreationDate
  else if field = "entryuuid" ∨ field = "uuid" then
    .PrimaryField .Uuid
  else
    .NoMatch

/-- Protocol result codes used by this layer. `InvalidDnSyntax` is the
code carried by distinguished-name parse errors (raised outside this
file). -/
inductive LdapResultCode where
  | UnwillingToPerform
  | Other
  | InvalidDnSyntax
deriving DecidableEq, Repr

/-- A protocol error: result code plus human-readable message. -/
structure LdapError where
  code : LdapResultCode
  message : String
deriving DecidableEq, Repr

/-- Result type of the translation layer (`LdapResult<T>` =
`Result<T, LdapError>`). -/
abbrev LdapResult (α : Type) := Except LdapError α

/-- Rust `format!` with the `{:?}` (Debug) specifier on a string wraps it
in double quotes (escaping of interior quotes is elided, as no name in the
development contains one). -/
def rust_debug (s : String) : String := "\x22" ++ s ++ "\x22"

/-- Drops `p` from the front of `s` if `p` is a prefix of `s`. -/
def dropFrontList (p s : List Char) : Option (List Char) :=
  match p, s with
  | [], rest => some rest
  | _ :: _, [] => none
  | c :: p1, d :: s1 => if c = d then dropFrontList p1 s1 else none

/-- Drops `suf` from the back of `s` if `suf` is a suffix of `s`. -/
def dropBackList (suf s : List Char) : Option (List Char) :=
  (dropFrontList suf.reverse s.reverse).map List.reverse

/-- The error produced by a failed user distinguished-name parse. -/
def user_dn_error : LdapError :=
  ⟨.InvalidDnSyntax, "Unexpected user DN format"⟩

/-- Modelled from the spec: `get_user_id_from_distinguished_name` lives in
`domain/ldap/utils.rs`, outside the provided source.  It parses a value as
a user distinguished name against the base DN, following the fixed grammar
`uid=<user_id>,ou=people,<base_dn>`; the extracted id is a single relative
component, so it may not contain a comma.  On success it yields the id, on
any mismatch an error. -/
def get_user_id_from_distinguished_name (dn : String) (base_dn_str : String) :
    LdapResult String :=
  match dropFrontList "uid=".data dn.data with
  | none => .error user_dn_error
  | some rest =>
    match dropBackList (",ou=people," ++ base_dn_str).data rest with
    | none => .error user_dn_error
    | some uid =>
      if uid.contains ',' then .error user_dn_error else .ok ⟨uid⟩

/-- The error produced by a failed group distinguished-name parse. -/
def group_dn_error : LdapError :=
  ⟨.InvalidDnSyntax, "Unexpected group DN format"⟩

/-- Modelled from the spec: `get_group_id_from_distinguished_name` lives
in `domain/ldap/utils.rs`, outside the provided source.  It parses a value
as a group distinguished name against the base DN, following the fixed
grammar `cn=<group>,ou=groups,<base_dn>`; on success it yields the group
identifier, on any mismatch an error. -/
def get_group_id_from_distinguished_name (dn : String) (base_dn_str : String) :
    LdapResult String :=
  match dropFrontList "cn=".data dn.data with
  | none => .error group_dn_error
  | some rest =>
    match dropBackList (",ou=groups," ++ base_dn_str).data rest with
    | none => .error group_dn_error
    | some gid =>
      if gid.contains ',' then .error group_dn_error else .ok ⟨gid⟩

/-- Group identity as consumed by this layer: only the display name is
read (to render the membership distinguished name). -/
structure GroupDetails where
  display_name : String
deriving DecidableEq, Repr

/-- A stored user record, per the data model: stable `user_id`, globally
unique `uuid`, `email`, optional `display_name`, a creation timestamp
(kept here in its rendered UTC rfc3339 text form, the only form this layer
emits; the chrono rendering itself is external), and an open mapping of
custom-attribute name to values. -/
structure User where
  user_id : String
  uuid : String
  email : String
  display_name : Option String
  creation_date : String
  attributes : List (String × List String)
deriving DecidableEq, Repr

/-- Modelled from the spec: the Schema is a read-only registry of declared
custom-attribute names, used only to resolve whether a requested custom
attribute exists. -/
abbrev Schema := List String

/-- First-match lookup in the user's attribute mapping. -/
def lookup_attr : List (String × List String) → String → Option (List String)
  | [], _ => none
  | (k, v) :: rest, name => if k = name then some v else lookup_attr rest name

/-- Modelled from the spec: `get_custom_attribute` lives in
`domain/ldap/utils.rs`, outside the provided source.  Synchronous lookup
of a custom attribute's raw values for a user, returning absence if the
attribute is undeclared in the schema or unset on the user. -/
def get_custom_attribute (attributes : List (String × List String))
    (attribute_name : String) (schema : Schema) : Option (List String) :=
  if schema.contains attribute_name then lookup_attr attributes attribute_name
  else none

/-- Per-deployment configuration (`LdapInfo` in `domain/ldap/utils.rs`):
the base distinguished name in string form and the ignore-list of
attribute names whose unknown-attribute warnings are suppressed. -/
structure LdapInfo where
  base_dn_str : String
  ignored_user_attributes : List String
deriving DecidableEq, Repr

/-- Outcome of the big `match` inside `get_user_attribute`, before the
final singleton-empty-value collapse: the `panic!` arm, an early `return
None`, or a computed value vector. -/
inductive RawResolution where
  | panicked
  | early_absent
  | raw_values (vs : List String)
deriving DecidableEq, Repr

/-- Outcome of `get_user_attribute`: the `panic!` arm made explicit,
`None`, or `Some(values)`. -/
inductive AttrResolution where
  | panicked
  | absent
  | values (vs : List String)
deriving DecidableEq, Repr

/-- Lifts an optional custom-attribute lookup into a raw resolution: the
Rust `?` operator on the `Option` (absent propagates as an early `return
None`, present values flow on to the final collapse check). -/
def customOr : Option (List String) → RawResolution
  | none => .early_absent
  | some vs => .raw_values vs

/-- The body of `get_user_attribute`'s `match` over the lower-cased
attribute name (the lower-casing itself is applied by
`get_user_attribute_raw`; it is factored out here so that proofs can
reason uniformly over the already-lowered name `attr`).  Mirrors
`user.rs` lines 28-80 arm by arm. -/
def get_user_attribute_raw_impl (user : User) (base_dn_str : String)
    (groups : Option (List GroupDetails)) (ignored_user_attributes : List String)
    (schema : Schema) (attr : String) : RawResolution :=
  if attr = "objectclass" then
    .raw_values ["inetOrgPerson", "posixAccount", "mailAccount", "person"]
  -- dn is always returned as part of the base response.
  else if attr = "dn" ∨ attr = "distinguishedname" then
    .early_absent
  else if attr = "uid" ∨ attr = "user_id" ∨ attr = "id" then
    .raw_values [user.user_id]
  else if attr = "entryuuid" ∨ attr = "uuid" then
    .raw_values [user.uuid]
  else if attr = "mail" ∨ attr = "email" then
    .raw_values [user.email]
  else if attr = "givenname" ∨ attr = "first_name" ∨ attr = "firstname" then
    customOr (get_custom_attribute user.attributes "first_name" schema)
  else if attr = "sn" ∨ attr = "last_name" ∨ attr = "lastname" then
    customOr (get_custom_attribute user.attributes "last_name" schema)
  else if attr = "jpegphoto" ∨ attr = "avatar" then
    customOr (get_custom_attribute user.attributes "avatar" schema)
  else if attr = "memberof" then
    .raw_values ((groups.getD []).map
      (fun id_and_name =>
        "cn=" ++ id_and_name.display_name ++ ",ou=groups," ++ base_dn_str))
  else if attr = "cn" ∨ attr = "displayname" then
    customOr (user.display_name.map (fun d => [d]))
  else if attr = "creationdate" ∨ attr = "creation_date" ∨
      attr = "createtimestamp" ∨ attr = "modifytimestamp" then
    .raw_values [user.creation_date]
  else if attr = "1.1" then
    .early_absent
  -- We ignore the operational attribute wildcard.
  else if attr = "+" then
    .early_absent
  else if attr = "*" then
    .panicked
  else
    .early_absent

/-- The `match` of `get_user_attribute` applied to the lower-cased
requested attribute name. -/
def get_user_attribute_raw (user : User) (attribute_name : String)
    (base_dn_str : String) (groups : Option (List GroupDetails))
    (ignored_user_attributes : List String) (schema : Schema) : RawResolution :=
  get_user_attribute_raw_impl user base_dn_str groups ignored_user_attributes
    schema (asciiLower attribute_name)

/-- `get_user_attribute` (`user.rs` lines 19-86): resolve the attribute
name, then collapse a value vector consisting of exactly one empty value
to absence. -/
def get_user_attribute (user : User) (attribute_name : String) (base_dn_str : String)
    (groups : Option (List GroupDetails)) (ignored_user_attributes : List String)
    (schema : Schema) : AttrResolution :=
  match get_user_attribute_raw user attribute_name base_dn_str groups
      ignored_user_attributes schema with
  | .panicked => .panicked
  | .early_absent => .absent
  | .raw_values vs => if vs = [""] then .absent else .values vs

/-- One emitted (attribute name, value list) pair of a search result
entry (`LdapPartialAttribute` from `ldap3_proto`). -/
structure LdapPartialAttribute where
  atype : String
  vals : List String
deriving DecidableEq, Repr

/-- One projected search result entry (`LdapSearchResultEntry` from
`ldap3_proto`): a distinguished name plus the value-bearing attributes. -/
structure LdapSearchResultEntry where
  dn : String
  attributes : List LdapPartialAttribute
deriving DecidableEq, Repr

/-- The canonical attribute set substituted for the `*` wildcard
(`ALL_USER_ATTRIBUTE_KEYS`, `user.rs` lines 88-98). -/
def ALL_USER_ATTRIBUTE_KEYS : List String :=
  ["objectclass", "uid", "mail", "givenname", "sn", "cn", "jpegPhoto",
   "createtimestamp", "entryuuid"]

/-- Modelled from the spec: `expand_attribute_wildcards` lives in
`domain/ldap/utils.rs`, outside the provided source.  If the requested
list contains `*`, the wildcard is removed and the fixed canonical
attribute set is unioned in; otherwise the list passes through unchanged
(`1.1` and `+` pass through unexpanded). -/
def expand_attribute_wildcards (ldap_attributes : List String)
    (all_attribute_keys : List String) : List String :=
  if "*" ∈ ldap_attributes then
    ldap_attributes.filter (fun a => a != "*") ++ all_attribute_keys
  else
    ldap_attributes

/-- `expand_user_attribute_wildcards` (`user.rs` lines 229-231). -/
def expand_user_attribute_wildcards (attributes : List String) : List String :=
  expand_attribute_wildcards attributes ALL_USER_ATTRIBUTE_KEYS

/-- One step of the `filter_map` body inside
`make_ldap_search_user_result_entry` (`user.rs` lines 114-127), with the
`panic!` that `get_user_attribute` may raise made explicit as an error
carrying the panic message. -/
def project_one (user : User) (base_dn_str : String)
    (groups : Option (List GroupDetails)) (ignored_user_attributes : List String)
    (schema : Schema) (a : String) : Except String (Option LdapPartialAttribute) :=
  match get_user_attribute user a base_dn_str groups ignored_user_attributes
      schema with
  | .panicked =>
    .error ("Matched " ++ asciiLower a ++
      ", * should have been expanded into attribute list and * removed")
  | .absent => .ok none
  | .values vs => .ok (some ⟨a, vs⟩)

/-- The `filter_map`/`collect` over the expanded attribute list: keeps the
value-bearing attributes in request order, aborts on panic. -/
def project_all (user : User) (base_dn_str : String)
    (groups : Option (List GroupDetails)) (ignored_user_attributes : List String)
    (schema : Schema) : List String → Except String (List LdapPartialAttribute)
  | [] => .ok []
  | a :: rest =>
    match project_one user base_dn_str groups ignored_user_attributes schema a with
    | .error e => .error e
    | .ok none => project_all user base_dn_str groups ignored_user_attributes schema rest
    | .ok (some pa) =>
      (project_all user base_dn_str groups ignored_user_attributes schema rest).map
        (fun pas => pa :: pas)

/-- `make_ldap_search_user_result_entry` (`user.rs` lines 100-130):
expand wildcards, build the distinguished name from the fixed grammar,
project each remaining attribute.  The impossible-by-contract `panic!` is
surfaced as the `Except` error case. -/
def make_ldap_search_user_result_entry (user : User) (base_dn_str : String)
    (attributes : List String) (groups : Option (List GroupDetails))
    (ignored_user_attributes : List String) (schema : Schema) :
    Except String LdapSearchResultEntry :=
  let expanded_attributes := expand_user_attribute_wildcards attributes
  (project_all user base_dn_str groups ignored_user_attributes schema
      expanded_attributes).map
    (fun pas =>
      ⟨"uid=" ++ user.user_id ++ ",ou=people," ++ base_dn_str, pas⟩)

/-- A protocol substring filter specification
(`LdapSubstringFilter`: optional initial chunk, middle chunks, optional
final chunk).  The translation clones it wholesale, so its internal
structure is never inspected by this layer. -/
structure SubstringFilter where
  sInitial : Option String
  sAny : List String
  sFinal : Option String
deriving DecidableEq, Repr

/-- The inbound protocol filter tree (`LdapFilter` from `ldap3_proto`),
restricted to the node kinds this layer inspects; `Unsupported` stands
for the open set of other node kinds (extensible match, approximate
match, ...), which the translation rejects wholesale. -/
inductive LdapFilter where
  | And (filters : List LdapFilter)
  | Or (filters : List LdapFilter)
  | Not (filter : LdapFilter)
  | Equality (field : String) (value : String)
  | Present (field : String)
  | Substring (field : String) (sub : SubstringFilter)
  | Unsupported

/-- The backend-agnostic filter AST (`UserRequestFilter` in
`domain/handler.rs`).  `TrueFilter`/`FalseFilter` are modelled from the
spec: the AST's always-true/always-false boolean constants, produced in
the source via `UserRequestFilter::from(bool)`. -/
inductive UserRequestFilter where
  | And (filters : List UserRequestFilter)
  | Or (filters : List UserRequestFilter)
  | Not (filter : UserRequestFilter)
  | UserId (uid : String)
  | Equality (column : UserColumn) (value : String)
  | SubString (column : UserColumn) (sub : SubstringFilter)
  | UserIdSubString (sub : SubstringFilter)
  | AttributeEquality (attribute_name : String) (value : String)
  | MemberOf (group : String)
  | TrueFilter
  | FalseFilter

/-- Modelled from the spec: `UserRequestFilter::from(bool)`, the boolean
constant filters. -/
def UserRequestFilter.ofBool (b : Bool) : UserRequestFilter :=
  if b then .TrueFilter else .FalseFilter

/-- The `matches!` test of the `objectclass` equality arm (`user.rs`
lines 152-155): the fixed recognized user object classes. -/
def is_user_object_class (value : String) : Bool :=
  value == "person" || value == "inetorgperson" || value == "posixaccount" ||
    value == "mailaccount"

mutual

/-- `convert_user_filter` (`user.rs` lines 132-227): translate a protocol
filter node into a backend filter, or fail with a protocol error.  String
dispatch on the lower-cased field name is written as an `if` chain (the
compilation of a Rust `match` on `&str`). -/
def convert_user_filter (ldap_info : LdapInfo) : LdapFilter → LdapResult UserRequestFilter
  | .And filters =>
    (convert_user_filter_list ldap_info filters).map UserRequestFilter.And
  | .Or filters =>
    (convert_user_filter_list ldap_info filters).map UserRequestFilter.Or
  | .Not f => (convert_user_filter ldap_info f).map UserRequestFilter.Not
  | .Equality field value =>
    let f := asciiLower field
    if f = "memberof" then
      (get_group_id_from_distinguished_name (asciiLower value)
          ldap_info.base_dn_str).map UserRequestFilter.MemberOf
    else if f = "objectclass" then
      .ok (UserRequestFilter.ofBool (is_user_object_class (asciiLower value)))
    else if f = "dn" then
      .ok
        (match get_user_id_from_distinguished_name (asciiLower value)
            ldap_info.base_dn_str with
        | .ok uid => UserRequestFilter.UserId uid
        | .error _ =>
          -- warn: invalid dn filter on user (diagnostic side effect only)
          UserRequestFilter.FalseFilter)
    else
      match map_user_field f with
      | .PrimaryField .UserId => .ok (UserRequestFilter.UserId value)
      | .PrimaryField column => .ok (UserRequestFilter.Equality column value)
      | .Attribute name => .ok (UserRequestFilter.AttributeEquality name value)
      | .NoMatch =>
        -- warn unless ignored: unknown user attribute in filter
        .ok UserRequestFilter.FalseFilter
  | .Present field =>
    let f := asciiLower field
    -- Check that it is a field we support.
    .ok (UserRequestFilter.ofBool
      (f == "objectclass" || f == "dn" || f == "distinguishedname" ||
        !(map_user_field f).isNoMatch))
  | .Substring field sub =>
    let f := asciiLower field
    match map_user_field f with
    | .PrimaryField .UserId => .ok (UserRequestFilter.UserIdSubString sub)
    | .NoMatch | .Attribute _ | .PrimaryField .CreationDate
    | .PrimaryField .Uuid =>
      .error ⟨.UnwillingToPerform,
        "Unsupported user attribute for substring filter: " ++ rust_debug f⟩
    | .PrimaryField column => .ok (UserRequestFilter.SubString column sub)
  | .Unsupported =>
    .error ⟨.UnwillingToPerform, "Unsupported user filter"⟩

/-- The fail-fast `collect::<LdapResult<_>>` over the children of an
`And`/`Or` node. -/
def convert_user_filter_list (ldap_info : LdapInfo) :
    List LdapFilter → LdapResult (List UserRequestFilter)
  | [] => .ok []
  | f :: fs => do
    let hd ← convert_user_filter ldap_info f
    let tl ← convert_user_filter_list ldap_info fs
    return hd :: tl

end

/-! Helper lemmas about the embedding. -/

theorem asciiLowerChar_eq_star {c : Char} (h : asciiLowerChar c = '*') :
    c = '*' := by
  unfold asciiLowerChar Char.toLower at h
  replace h : (if c.toNat ≥ 65 ∧ c.toNat ≤ 90 then Char.ofNat (c.toNat + 32)
      else c) = '*' := h
  split at h
  · next hc =>
    obtain ⟨hc1, hc2⟩ := hc
    have hv : (c.toNat + 32).isValidChar := Or.inl (by omega)
    rw [Char.ofNat, dif_pos hv] at h
    have h2 : (Char.ofNatAux (c.toNat + 32) hv).toNat = ('*' : Char).toNat :=
      congrArg Char.toNat h
    have h3 : c.toNat + 32 = 42 := h2
    omega
  · exact h

theorem asciiLower_eq_star {s : String} (h : asciiLower s = "*") : s = "*" := by
  obtain ⟨l⟩ := s
  have hd : l.map asciiLowerChar = ['*'] := congrArg String.data h
  cases l with
  | nil => simp at hd
  | cons c rest =>
    simp only [List.map_cons, List.cons.injEq, List.map_eq_nil_iff] at hd
    obtain ⟨hc, hrest⟩ := hd
    subst hrest
    have hcs := asciiLowerChar_eq_star hc
    subst hcs
    rfl

theorem customOr_ne_panicked (o : Option (List String)) :
    customOr o ≠ .panicked := by
  cases o <;> simp [customOr]

theorem customOr_eq_raw_values {o : Option (List String)} {vs : List String}
    (h : customOr o = .raw_values vs) : o = some vs := by
  cases o <;> simp_all [customOr]

theorem lookup_attr_mem {l : List (String × List String)} {n : String}
    {vs : List String} (h : lookup_attr l n = some vs) :
    ∃ k, (k, vs) ∈ l := by
  induction l with
  | nil => simp [lookup_attr] at h
  | cons p rest ih =>
    obtain ⟨k, v⟩ := p
    unfold lookup_attr at h
    split at h
    · exact ⟨k, by simp_all⟩
    · obtain ⟨k1, hk1⟩ := ih h
      exact ⟨k1, List.mem_cons_of_mem _ hk1⟩

theorem get_custom_attribute_some {attrs : List (String × List String)}
    {name : String} {schema : Schema} {vs : List String}
    (h : get_custom_attribute attrs name schema = some vs) :
    ∃ k, (k, vs) ∈ attrs := by
  unfold get_custom_attribute at h
  split at h
  · exact lookup_attr_mem h
  · simp at h

theorem impl_panicked_iff (u : User) (b : String) (g : Option (List GroupDetails))
    (ign : List String) (sc : Schema) (s : String) :
    get_user_attribute_raw_impl u b g ign sc s = .panicked ↔ s = "*" := by
  constructor
  · intro h
    unfold get_user_attribute_raw_impl at h
    by_cases h1 : s = "objectclass"
    · rw [if_pos h1] at h; exact RawResolution.noConfusion h
    rw [if_neg h1] at h
    by_cases h2 : s = "dn" ∨ s = "distinguishedname"
    · rw [if_pos h2] at h; exact RawResolution.noConfusion h
    rw [if_neg h2] at h
    by_cases h3 : s = "uid" ∨ s = "user_id" ∨ s = "id"
    · rw [if_pos h3] at h; exact RawResolution.noConfusion h
    rw [if_neg h3] at h
    by_cases h4 : s = "entryuuid" ∨ s = "uuid"
    · rw [if_pos h4] at h; exact RawResolution.noConfusion h
    rw [if_neg h4] at h
    by_cases h5 : s = "mail" ∨ s = "email"
    · rw [if_pos h5] at h; exact RawResolution.noConfusion h
    rw [if_neg h5] at h
    by_cases h6 : s = "givenname" ∨ s = "first_name" ∨ s = "firstname"
    · rw [if_pos h6] at h; exact absurd h (customOr_ne_panicked _)
    rw [if_neg h6] at h
    by_cases h7 : s = "sn" ∨ s = "last_name" ∨ s = "lastname"
    · rw [if_pos h7] at h; exact absurd h (customOr_ne_panicked _)
    rw [if_neg h7] at h
    by_cases h8 : s = "jpegphoto" ∨ s = "avatar"
    · rw [if_pos h8] at h; exact absurd h (customOr_ne_panicked _)
    rw [if_neg h8] at h
    by_cases h9 : s = "memberof"
    · rw [if_pos h9] at h; exact RawResolution.noConfusion h
    rw [if_neg h9] at h
    by_cases h10 : s = "cn" ∨ s = "displayname"
    · rw [if_pos h10] at h; exact absurd h (customOr_ne_panicked _)
    rw [if_neg h10] at h
    by_cases h11 : s = "creationdate" ∨ s = "creation_date" ∨
        s = "createtimestamp" ∨ s = "modifytimestamp"
    · rw [if_pos h11] at h; exact RawResolution.noConfusion h
    rw [if_neg h11] at h
    by_cases h12 : s = "1.1"
    · rw [if_pos h12] at h; exact RawResolution.noConfusion h
    rw [if_neg h12] at h
    by_cases h13 : s = "+"
    · rw [if_pos h13] at h; exact RawResolution.noConfusion h
    rw [if_neg h13] at h
    by_cases h14 : s = "*"
    · exact h14
    rw [if_neg h14] at h
    exact RawResolution.noConfusion h
  · intro h
    subst h
    rfl

theorem impl_values_cases {u : User} {b : String} {g : Option (List GroupDetails)}
    {ign : List String} {sc : Schema} {s : String} {vs : List String}
    (hattr : ∀ p ∈ u.attributes, p.2 ≠ [])
    (h : get_user_attribute_raw_impl u b g ign sc s = .raw_values vs) :
    vs ≠ [] ∨ s = "memberof" := by
  unfold get_user_attribute_raw_impl at h
  by_cases h1 : s = "objectclass"
  · rw [if_pos h1] at h; injection h with h; subst h; exact Or.inl (by simp)
  rw [if_neg h1] at h
  by_cases h2 : s = "dn" ∨ s = "distinguishedname"
  · rw [if_pos h2] at h; exact RawResolution.noConfusion h
  rw [if_neg h2] at h
  by_cases h3 : s = "uid" ∨ s = "user_id" ∨ s = "id"
  · rw [if_pos h3] at h; injection h with h; subst h; exact Or.inl (by simp)
  rw [if_neg h3] at h
  by_cases h4 : s = "entryuuid" ∨ s = "uuid"
  · rw [if_pos h4] at h; injection h with h; subst h; exact Or.inl (by simp)
  rw [if_neg h4] at h
  by_cases h5 : s = "mail" ∨ s = "email"
  · rw [if_pos h5] at h; injection h with h; subst h; exact Or.inl (by simp)
  rw [if_neg h5] at h
  by_cases h6 : s = "givenname" ∨ s = "first_name" ∨ s = "firstname"
  · rw [if_pos h6] at h
    obtain ⟨k, hk⟩ := get_custom_attribute_some (customOr_eq_raw_values h)
    exact Or.inl (hattr (k, vs) hk)
  rw [if_neg h6] at h
  by_cases h7 : s = "sn" ∨ s = "last_name" ∨ s = "lastname"
  · rw [if_pos h7] at h
    obtain ⟨k, hk⟩ := get_custom_attribute_some (customOr_eq_raw_values h)
    exact Or.inl (hattr (k, vs) hk)
  rw [if_neg h7] at h
  by_cases h8 : s = "jpegphoto" ∨ s = "avatar"
  · rw [if_pos h8] at h
    obtain ⟨k, hk⟩ := get_custom_attribute_some (customOr_eq_raw_values h)
    exact Or.inl (hattr (k, vs) hk)
  rw [if_neg h8] at h
  by_cases h9 : s = "memberof"
  · exact Or.inr h9
  rw [if_neg h9] at h
  by_cases h10 : s = "cn" ∨ s = "displayname"
  · rw [if_pos h10] at h
    obtain ⟨d, hd1, hd2⟩ := Option.map_eq_some'.mp (customOr_eq_raw_values h)
    subst hd2
    exact Or.inl (by simp)
  rw [if_neg h10] at h
  by_cases h11 : s = "creationdate" ∨ s = "creation_date" ∨
      s = "createtimestamp" ∨ s = "modifytimestamp"
  · rw [if_pos h11] at h; injection h with h; subst h; exact Or.inl (by simp)
  rw [if_neg h11] at h
  by_cases h12 : s = "1.1"
  · rw [if_pos h12] at h; exact RawResolution.noConfusion h
  rw [if_neg h12] at h
  by_cases h13 : s = "+"
  · rw [if_pos h13] at h; exact RawResolution.noConfusion h
  rw [if_neg h13] at h
  by_cases h14 : s = "*"
  · rw [if_pos h14] at h; exact RawResolution.noConfusion h
  rw [if_neg h14] at h
  exact RawResolution.noConfusion h

theorem get_user_attribute_eq (u : User) (a b : String)
    (g : Option (List GroupDetails)) (ign : List String) (sc : Schema) :
    get_user_attribute u a b g ign sc =
      match get_user_attribute_raw_impl u b g ign sc (asciiLower a) with
      | .panicked => .panicked
      | .early_absent => .absent
      | .raw_values vs => if vs = [""] then .absent else .values vs := rfl

theorem get_panicked_iff (u : User) (a b : String)
    (g : Option (List GroupDetails)) (ign : List String) (sc : Schema) :
    get_user_attribute u a b g ign sc = .panicked ↔ asciiLower a = "*" := by
  constructor
  · intro hp
    rcases himpl : get_user_attribute_raw_impl u b g ign sc (asciiLower a)
      with _ | _ | vs
    · exact (impl_panicked_iff u b g ign sc (asciiLower a)).mp himpl
    · rw [get_user_attribute_eq] at hp
      simp only [himpl] at hp
      exact AttrResolution.noConfusion hp
    · rw [get_user_attribute_eq] at hp
      simp only [himpl] at hp
      split at hp <;> exact AttrResolution.noConfusion hp
  · intro hs
    rw [get_user_attribute_eq]
    simp only [(impl_panicked_iff u b g ign sc (asciiLower a)).mpr hs]

theorem get_values_inv {u : User} {a b : String} {g : Option (List GroupDetails)}
    {ign : List String} {sc : Schema} {vs : List String}
    (h : get_user_attribute u a b g ign sc = .values vs) :
    get_user_attribute_raw_impl u b g ign sc (asciiLower a) = .raw_values vs ∧
      vs ≠ [""] := by
  rcases himpl : get_user_attribute_raw_impl u b g ign sc (asciiLower a)
    with _ | _ | vs1
  · rw [get_user_attribute_eq] at h
    simp only [himpl] at h
    exact AttrResolution.noConfusion h
  · rw [get_user_attribute_eq] at h
    simp only [himpl] at h
    exact AttrResolution.noConfusion h
  · rw [get_user_attribute_eq] at h
    simp only [himpl] at h
    split at h
    · exact AttrResolution.noConfusion h
    · next hne =>
      injection h with h2
      subst h2
      exact ⟨rfl, hne⟩

theorem project_one_some_inv {u : User} {b : String} {g : Option (List GroupDetails)}
    {ign : List String} {sc : Schema} {a : String} {pa : LdapPartialAttribute}
    (h : project_one u b g ign sc a = .ok (some pa)) :
    get_user_attribute u a b g ign sc = .values pa.vals ∧ pa.atype = a := by
  unfold project_one at h
  rcases hg : get_user_attribute u a b g ign sc with _ | _ | vs
  · rw [hg] at h
    exact Except.noConfusion h
  · rw [hg] at h
    injection h with h
    exact Option.noConfusion h
  · rw [hg] at h
    injection h with h
    injection h with h
    subst h
    exact ⟨rfl, rfl⟩

theorem project_all_mem {u : User} {b : String} {g : Option (List GroupDetails)}
    {ign : List String} {sc : Schema} {l : List String}
    {pas : List LdapPartialAttribute} {pa : LdapPartialAttribute}
    (h : project_all u b g ign sc l = .ok pas) (hm : pa ∈ pas) :
    ∃ a, a ∈ l ∧ project_one u b g ign sc a = .ok (some pa) := by
  induction l generalizing pas with
  | nil =>
    unfold project_all at h
    injection h with h
    subst h
    simp at hm
  | cons a0 rest ih =>
    unfold project_all at h
    rcases hp : project_one u b g ign sc a0 with e | o
    · rw [hp] at h
      exact Except.noConfusion h
    · rw [hp] at h
      cases o with
      | none =>
        obtain ⟨a1, ha1, ha2⟩ := ih h hm
        exact ⟨a1, List.mem_cons_of_mem _ ha1, ha2⟩
      | some pa1 =>
        rcases hr : project_all u b g ign sc rest with e | pas1
        · rw [hr] at h
          exact Except.noConfusion h
        · rw [hr] at h
          injection h with h
          subst h
          rcases List.mem_cons.mp hm with h1 | h1
          · subst h1
            exact ⟨a0, List.mem_cons_self _ _, hp⟩
          · obtain ⟨a1, ha1, ha2⟩ := ih hr h1
            exact ⟨a1, List.mem_cons_of_mem _ ha1, ha2⟩

theorem project_one_ok {u : User} {b : String} {g : Option (List GroupDetails)}
    {ign : List String} {sc : Schema} {a : String} (hne : asciiLower a ≠ "*") :
    ∃ o, project_one u b g ign sc a = .ok o := by
  unfold project_one
  rcases hg : get_user_attribute u a b g ign sc with _ | _ | vs
  · exact absurd ((get_panicked_iff u a b g ign sc).mp hg) hne
  · exact ⟨none, rfl⟩
  · exact ⟨some ⟨a, vs⟩, rfl⟩

theorem project_all_ok {u : User} {b : String} {g : Option (List GroupDetails)}
    {ign : List String} {sc : Schema} {l : List String}
    (hl : ∀ a ∈ l, asciiLower a ≠ "*") :
    ∃ pas, project_all u b g ign sc l = .ok pas := by
  induction l with
  | nil => exact ⟨[], rfl⟩
  | cons a0 rest ih =>
    obtain ⟨pas1, hr⟩ := ih (fun a ha => hl a (List.mem_cons_of_mem _ ha))
    obtain ⟨o, ho⟩ := project_one_ok (hl a0 (List.mem_cons_self _ _))
    unfold project_all
    rw [ho]
    cases o with
    | none => exact ⟨pas1, hr⟩
    | some pa => exact ⟨pa :: pas1, by rw [hr]; rfl⟩

theorem star_not_mem_expand (attrs : List String) :
    "*" ∉ expand_user_attribute_wildcards attrs := by
  unfold expand_user_attribute_wildcards expand_attribute_wildcards
  split
  · intro hmem
    rcases List.mem_append.mp hmem with h1 | h1
    · have h2 := (List.mem_filter.mp h1).2
      simp at h2
    · exact absurd h1 (by decide)
  · next hns => exact hns

theorem make_ok_inv {u : User} {b : String} {attrs : List String}
    {g : Option (List GroupDetails)} {ign : List String} {sc : Schema}
    {e : LdapSearchResultEntry}
    (h : make_ldap_search_user_result_entry u b attrs g ign sc = .ok e) :
    e.dn = "uid=" ++ u.user_id ++ ",ou=people," ++ b ∧
      project_all u b g ign sc (expand_user_attribute_wildcards attrs) =
        .ok e.attributes := by
  replace h :
      Except.map
        (fun pas =>
          (⟨"uid=" ++ u.user_id ++ ",ou=people," ++ b, pas⟩ :
            LdapSearchResultEntry))
        (project_all u b g ign sc (expand_user_attribute_wildcards attrs)) =
      .ok e := h
  rcases hp : project_all u b g ign sc (expand_user_attribute_wildcards attrs)
    with e1 | pas
  · rw [hp] at h
    exact Except.noConfusion h
  · rw [hp] at h
    injection h with h
    subst h
    exact ⟨rfl, rfl⟩

theorem group_dn_render_ne_empty (gd : GroupDetails) (b : String) :
    "cn=" ++ gd.display_name ++ ",ou=groups," ++ b ≠ "" := by
  intro h
  have hlen := congrArg String.length h
  rw [String.length_append, String.length_append, String.length_append] at hlen
  have e1 : "cn=".length = 3 := rfl
  have e2 : ("" : String).length = 0 := rfl
  rw [e1, e2] at hlen
  omega

theorem memberof_values_ne_single_empty (gs : List GroupDetails) (b : String) :
    gs.map (fun gd => "cn=" ++ gd.display_name ++ ",ou=groups," ++ b) ≠ [""] := by
  cases gs with
  | nil => simp
  | cons gd rest =>
    intro h
    rw [List.map_cons] at h
    injection h with h1 h2
    exact group_dn_render_ne_empty gd b h1

/-! Concrete fixtures used by witnesses and counterexamples. -/

/-- A deployment configuration with base DN `dc=example,dc=com` and an
empty ignore-list. -/
def info0 : LdapInfo := ⟨"dc=example,dc=com", []⟩

/-- A trivial substring specification. -/
def sub0 : SubstringFilter := ⟨none, [], none⟩

/-- A schema declaring the three custom attributes the projector reads. -/
def schema0 : Schema := ["first_name", "last_name", "avatar"]

/-- A fully populated user record. -/
def user0 : User :=
  ⟨"alice", "uuid-alice-1", "alice@example.com", some "Alice",
   "2024-01-01T00:00:00+00:00", [("first_name", ["Alice"])]⟩

/-- Two group memberships, in backend order. -/
def groups0 : List GroupDetails := [⟨"admins"⟩, ⟨"devs"⟩]

/-- A user whose email is the empty string and with nothing else set. -/
def user_blank : User :=
  ⟨"bob", "uuid-bob-2", "", none, "2024-01-01T00:00:00+00:00", []⟩

/-- The entry projected from `user0` for the request `["dn", "uid"]`. -/
def entry_dn_uid : LdapSearchResultEntry :=
  ⟨"uid=alice,ou=people,dc=example,dc=com", [⟨"uid", ["alice"]⟩]⟩

/-- The entry projected from `user0` for the request `["memberOf"]` with
`groups0` supplied. -/
def entry_memberof : LdapSearchResultEntry :=
  ⟨"uid=alice,ou=people,dc=example,dc=com",
   [⟨"memberOf",
     ["cn=admins,ou=groups,dc=example,dc=com",
      "cn=devs,ou=groups,dc=example,dc=com"]⟩]⟩

/-- The entry projected from `user0` for the request `["uid"]`. -/
def entry_uid : LdapSearchResultEntry :=
  ⟨"uid=alice,ou=people,dc=example,dc=com", [⟨"uid", ["alice"]⟩]⟩

/-! The claims. -/

/-- C1: for every substring filter node, translation resolves the
lower-cased field: the user-id primary field yields the dedicated user-id
substring filter; any other primary field except creation-date and uuid
yields a generic primary-field substring filter; a custom attribute, an
unrecognized field, or the creation-date or uuid primary fields fail with
an UnwillingToPerform error whose message names the offending field. -/
theorem convert_substring_field_classification (info : LdapInfo)
    (field : String) (sub : SubstringFilter) :
    (map_user_field (asciiLower field) = .PrimaryField .UserId →
      convert_user_filter info (.Substring field sub) =
        .ok (.UserIdSubString sub)) ∧
    (∀ column, map_user_field (asciiLower field) = .PrimaryField column →
      column ≠ .UserId → column ≠ .CreationDate → column ≠ .Uuid →
      convert_user_filter info (.Substring field sub) =
        .ok (.SubString column sub)) ∧
    ((map_user_field (asciiLower field) = .NoMatch ∨
      (∃ name, map_user_field (asciiLower field) = .Attribute name) ∨
      map_user_field (asciiLower field) = .PrimaryField .CreationDate ∨
      map_user_field (asciiLower field) = .PrimaryField .Uuid) →
      convert_user_filter info (.Substring field sub) =
        .error ⟨.UnwillingToPerform,
          "Unsupported user attribute for substring filter: " ++
            rust_debug (asciiLower field)⟩) := by
  have hred : convert_user_filter info (.Substring field sub) =
      match map_user_field (asciiLower field) with
      | .PrimaryField .UserId => .ok (.UserIdSubString sub)
      | .NoMatch | .Attribute _ | .PrimaryField .CreationDate
      | .PrimaryField .Uuid =>
        .error ⟨.UnwillingToPerform,
          "Unsupported user attribute for substring filter: " ++
            rust_debug (asciiLower field)⟩
      | .PrimaryField column => .ok (.SubString column sub) := rfl
  refine ⟨?_, ?_, ?_⟩
  · intro h
    rw [hred]
    simp only [h]
  · intro column h h1 h2 h3
    cases column with
    | UserId => exact absurd rfl h1
    | CreationDate => exact absurd rfl h2
    | Uuid => exact absurd rfl h3
    | Email =>
      rw [hred]
      simp only [h]
    | DisplayName =>
      rw [hred]
      simp only [h]
  · intro h
    rw [hred]
    rcases h with h | ⟨name, h⟩ | h | h <;> simp only [h]

/-- Witness for C1: `uid` gives the dedicated user-id substring filter,
`mail` the generic primary substring filter, `uuid` the
UnwillingToPerform error naming the field. -/
theorem convert_substring_field_classification_witness :
    convert_user_filter info0 (.Substring "uid" sub0) =
      .ok (.UserIdSubString sub0) ∧
    convert_user_filter info0 (.Substring "mail" sub0) =
      .ok (.SubString .Email sub0) ∧
    convert_user_filter info0 (.Substring "uuid" sub0) =
      .error ⟨.UnwillingToPerform,
        "Unsupported user attribute for substring filter: " ++
          rust_debug "uuid"⟩ :=
  ⟨(convert_substring_field_classification info0 "uid" sub0).1 (by decide),
   (convert_substring_field_classification info0 "mail" sub0).2.1 .Email
     (by decide) (by decide) (by decide) (by decide),
   (convert_substring_field_classification info0 "uuid" sub0).2.2
     (Or.inr (Or.inr (Or.inr (by decide))))⟩

/-- C2: translating an equality filter on `dn` parses the (lower-cased)
value as a user distinguished name against the base DN; success yields an
exact user-id filter, parse failure degrades to the constant-false filter
and never to an error. -/
theorem convert_equality_dn_parse_or_false (info : LdapInfo) (value : String) :
    (∀ uid, get_user_id_from_distinguished_name (asciiLower value)
        info.base_dn_str = .ok uid →
      convert_user_filter info (.Equality "dn" value) = .ok (.UserId uid)) ∧
    (∀ err, get_user_id_from_distinguished_name (asciiLower value)
        info.base_dn_str = .error err →
      convert_user_filter info (.Equality "dn" value) = .ok .FalseFilter) := by
  have hred : convert_user_filter info (.Equality "dn" value) =
      .ok
        (match get_user_id_from_distinguished_name (asciiLower value)
            info.base_dn_str with
        | .ok uid => UserRequestFilter.UserId uid
        | .error _ => UserRequestFilter.FalseFilter) := rfl
  constructor
  · intro uid hp
    rw [hred]
    simp only [hp]
  · intro err hp
    rw [hred]
    simp only [hp]

/-- Witness for C2: a well-formed user DN yields the user-id filter for
`bob`, a malformed value yields constant-false. -/
theorem convert_equality_dn_parse_or_false_witness :
    convert_user_filter info0
        (.Equality "dn" "uid=bob,ou=people,dc=example,dc=com") =
      .ok (.UserId "bob") ∧
    convert_user_filter info0 (.Equality "dn" "not a dn") =
      .ok .FalseFilter :=
  ⟨(convert_equality_dn_parse_or_false info0
      "uid=bob,ou=people,dc=example,dc=com").1 "bob" (by rfl),
   (convert_equality_dn_parse_or_false info0 "not a dn").2 user_dn_error
     (by rfl)⟩

/-- C3: translating an equality filter on `memberOf` parses the
lower-cased value as a group distinguished name; success yields the
group-membership filter, and a parse failure propagates the parse error,
failing the whole translation (unlike the `dn` case). -/
theorem convert_equality_memberof_propagates_error (info : LdapInfo)
    (value : String) :
    (∀ gid, get_group_id_from_distinguished_name (asciiLower value)
        info.base_dn_str = .ok gid →
      convert_user_filter info (.Equality "memberOf" value) =
        .ok (.MemberOf gid)) ∧
    (∀ err, get_group_id_from_distinguished_name (asciiLower value)
        info.base_dn_str = .error err →
      convert_user_filter info (.Equality "memberOf" value) = .error err) := by
  have hred : convert_user_filter info (.Equality "memberOf" value) =
      (get_group_id_from_distinguished_name (asciiLower value)
          info.base_dn_str).map UserRequestFilter.MemberOf := rfl
  constructor
  · intro gid hp
    rw [hred, hp]
    rfl
  · intro err hp
    rw [hred, hp]
    rfl

/-- Witness for C3: a well-formed group DN yields the membership filter
for `admins`, a malformed value propagates the parse error. -/
theorem convert_equality_memberof_propagates_error_witness :
    convert_user_filter info0
        (.Equality "memberOf" "cn=admins,ou=groups,dc=example,dc=com") =
      .ok (.MemberOf "admins") ∧
    convert_user_filter info0 (.Equality "memberOf" "not a dn") =
      .error group_dn_error :=
  ⟨(convert_equality_memberof_propagates_error info0
      "cn=admins,ou=groups,dc=example,dc=com").1 "admins" (by rfl),
   (convert_equality_memberof_propagates_error info0 "not a dn").2
     group_dn_error (by rfl)⟩

theorem is_user_object_class_iff (v : String) :
    is_user_object_class v = true ↔
      v ∈ (["person", "inetorgperson", "posixaccount", "mailaccount"] :
        List String) := by
  simp only [is_user_object_class, Bool.or_eq_true, beq_iff_eq,
    List.mem_cons, List.not_mem_nil, or_false]
  tauto

/-- C5: translating an equality filter whose field lower-cases to
`objectclass` always succeeds; it yields the constant-true filter exactly
when the lower-cased value is one of `person`, `inetorgperson`,
`posixaccount`, `mailaccount`, and the constant-false filter otherwise. -/
theorem convert_equality_objectclass_constant (info : LdapInfo)
    (field value : String) (hf : asciiLower field = "objectclass") :
    (asciiLower value ∈
        (["person", "inetorgperson", "posixaccount", "mailaccount"] :
          List String) →
      convert_user_filter info (.Equality field value) = .ok .TrueFilter) ∧
    (asciiLower value ∉
        (["person", "inetorgperson", "posixaccount", "mailaccount"] :
          List String) →
      convert_user_filter info (.Equality field value) = .ok .FalseFilter) := by
  have hred : convert_user_filter info (.Equality field value) =
      (if asciiLower field = "memberof" then
        (get_group_id_from_distinguished_name (asciiLower value)
            info.base_dn_str).map UserRequestFilter.MemberOf
      else if asciiLower field = "objectclass" then
        .ok (UserRequestFilter.ofBool (is_user_object_class (asciiLower value)))
      else if asciiLower field = "dn" then
        .ok
          (match get_user_id_from_distinguished_name (asciiLower value)
              info.base_dn_str with
          | .ok uid => UserRequestFilter.UserId uid
          | .error _ => UserRequestFilter.FalseFilter)
      else
        match map_user_field (asciiLower field) with
        | .PrimaryField .UserId => .ok (UserRequestFilter.UserId value)
        | .PrimaryField column => .ok (UserRequestFilter.Equality column value)
        | .Attribute name => .ok (UserRequestFilter.AttributeEquality name value)
        | .NoMatch => .ok UserRequestFilter.FalseFilter) := rfl
  rw [hred, hf]
  rw [if_neg (by decide), if_pos rfl]
  constructor
  · intro hmem
    rw [(is_user_object_class_iff (asciiLower value)).mpr hmem]
    rfl
  · intro hmem
    have hb : is_user_object_class (asciiLower value) = false := by
      rw [← Bool.not_eq_true]
      intro hc
      exact hmem ((is_user_object_class_iff (asciiLower value)).mp hc)
    rw [hb]
    rfl

/-- Witness for C5: `objectClass = posixAccount` (mixed case on both
sides) gives constant-true, `objectClass = bogus` constant-false. -/
theorem convert_equality_objectclass_constant_witness :
    convert_user_filter info0 (.Equality "objectClass" "posixAccount") =
      .ok .TrueFilter ∧
    convert_user_filter info0 (.Equality "objectClass" "bogus") =
      .ok .FalseFilter :=
  ⟨(convert_equality_objectclass_constant info0 "objectClass" "posixAccount"
      (by rfl)).1 (by decide),
   (convert_equality_objectclass_constant info0 "objectClass" "bogus"
      (by rfl)).2 (by decide)⟩

/-- Counterexample to C4 as stated: requesting `memberOf` when group
expansion produced an empty group list yields a projected entry that
carries the `memberOf` attribute with an empty value list (the empty
vector has length 0, so the singleton-empty collapse does not fire), so
not every emitted (name, list-of-values) pair has a non-empty list. -/
theorem projected_entry_empty_values_counterexample :
    make_ldap_search_user_result_entry user0 "dc=example,dc=com" ["memberOf"]
        (some []) [] schema0 =
      .ok ⟨"uid=alice,ou=people,dc=example,dc=com", [⟨"memberOf", []⟩]⟩ := rfl

/-- C4 (amended): in every projected entry of a user whose stored custom
attributes each hold at least one value (the data-model invariant), every
emitted (attribute name, list-of-values) pair has a non-empty list of
values, except that a requested `memberOf` is emitted with an empty value
list when the supplied group list is empty or absent. -/
theorem projected_entry_values_nonempty_except_memberof (u : User)
    (b : String) (attrs : List String) (g : Option (List GroupDetails))
    (ign : List String) (sc : Schema) (e : LdapSearchResultEntry)
    (hattr : ∀ p ∈ u.attributes, p.2 ≠ [])
    (hmk : make_ldap_search_user_result_entry u b attrs g ign sc = .ok e) :
    ∀ pa ∈ e.attributes, pa.vals ≠ [] ∨ asciiLower pa.atype = "memberof" := by
  intro pa hpa
  obtain ⟨_, hproj⟩ := make_ok_inv hmk
  obtain ⟨a, ha_mem, ha_proj⟩ := project_all_mem hproj hpa
  obtain ⟨hval, hatype⟩ := project_one_some_inv ha_proj
  subst hatype
  obtain ⟨himpl, hne⟩ := get_values_inv hval
  exact impl_values_cases hattr himpl

/-- Witness for the amended C4 at a concrete entry. -/
theorem projected_entry_values_nonempty_except_memberof_witness :
    (⟨"uid", ["alice"]⟩ : LdapPartialAttribute).vals ≠ [] ∨
      asciiLower (⟨"uid", ["alice"]⟩ : LdapPartialAttribute).atype =
        "memberof" :=
  projected_entry_values_nonempty_except_memberof user0 "dc=example,dc=com"
    ["uid"] none [] schema0 entry_uid (by decide) (by rfl)
    ⟨"uid", ["alice"]⟩ (by decide)

/-- C6: the projected entry's distinguished name is exactly
`uid=<user_id>,ou=people,<base_dn>`, and when `memberOf` is requested
with a supplied group list the resolved values are exactly one
`cn=<group_display_name>,ou=groups,<base_dn>` per group, in the supplied
order. -/
theorem entry_dn_and_memberof_values (u : User) (b : String)
    (attrs : List String) (gs : List GroupDetails) (ign : List String)
    (sc : Schema) (e : LdapSearchResultEntry)
    (hmk : make_ldap_search_user_result_entry u b attrs (some gs) ign sc =
      .ok e) :
    e.dn = "uid=" ++ u.user_id ++ ",ou=people," ++ b ∧
    get_user_attribute u "memberOf" b (some gs) ign sc =
      .values (gs.map
        (fun gd => "cn=" ++ gd.display_name ++ ",ou=groups," ++ b)) := by
  refine ⟨(make_ok_inv hmk).1, ?_⟩
  have himpl : get_user_attribute_raw_impl u b (some gs) ign sc
      (asciiLower "memberOf") =
      .raw_values (gs.map
        (fun gd => "cn=" ++ gd.display_name ++ ",ou=groups," ++ b)) := rfl
  rw [get_user_attribute_eq]
  simp only [himpl]
  rw [if_neg (memberof_values_ne_single_empty gs b)]

/-- Witness for C6: `user0` with groups `admins`, `devs` under base DN
`dc=example,dc=com`. -/
theorem entry_dn_and_memberof_values_witness :
    entry_memberof.dn = "uid=" ++ user0.user_id ++ ",ou=people," ++
      "dc=example,dc=com" ∧
    get_user_attribute user0 "memberOf" "dc=example,dc=com" (some groups0) []
        schema0 =
      .values (groups0.map
        (fun gd =>
          "cn=" ++ gd.display_name ++ ",ou=groups," ++ "dc=example,dc=com")) :=
  entry_dn_and_memberof_values user0 "dc=example,dc=com" ["memberOf"] groups0
    [] schema0 entry_memberof (by rfl)

/-- C7: the attribute names `dn` and `distinguishedName` (matched
case-insensitively) resolve to no value, and consequently never appear as
a value-bearing attribute of a projected result entry. -/
theorem dn_never_value_bearing (u : User) (b : String)
    (g : Option (List GroupDetails)) (ign : List String) (sc : Schema)
    (attrs : List String) (e : LdapSearchResultEntry)
    (hmk : make_ldap_search_user_result_entry u b attrs g ign sc = .ok e) :
    (∀ a, asciiLower a = "dn" ∨ asciiLower a = "distinguishedname" →
      get_user_attribute u a b g ign sc = .absent) ∧
    ∀ pa ∈ e.attributes,
      asciiLower pa.atype ≠ "dn" ∧ asciiLower pa.atype ≠ "distinguishedname" := by
  have habs : ∀ a : String,
      asciiLower a = "dn" ∨ asciiLower a = "distinguishedname" →
      get_user_attribute u a b g ign sc = .absent := by
    intro a ha
    have himpl : get_user_attribute_raw_impl u b g ign sc (asciiLower a) =
        .early_absent := by
      rcases ha with ha | ha <;> rw [ha] <;> rfl
    rw [get_user_attribute_eq]
    simp only [himpl]
  refine ⟨habs, ?_⟩
  intro pa hpa
  obtain ⟨_, hproj⟩ := make_ok_inv hmk
  obtain ⟨a, ha_mem, ha_proj⟩ := project_all_mem hproj hpa
  obtain ⟨hval, hatype⟩ := project_one_some_inv ha_proj
  subst hatype
  constructor <;> intro hc
  · have habs1 := habs pa.atype (Or.inl hc)
    rw [habs1] at hval
    exact AttrResolution.noConfusion hval
  · have habs1 := habs pa.atype (Or.inr hc)
    rw [habs1] at hval
    exact AttrResolution.noConfusion hval

/-- Witness for C7: requesting `["dn", "uid"]` for `user0` projects an
entry whose only value-bearing attribute is `uid`; resolving `dn`
directly yields no value. -/
theorem dn_never_value_bearing_witness :
    get_user_attribute user0 "dn" "dc=example,dc=com" none [] schema0 =
      .absent ∧
    asciiLower (⟨"uid", ["alice"]⟩ : LdapPartialAttribute).atype ≠ "dn" :=
  ⟨(dn_never_value_bearing user0 "dc=example,dc=com" none [] schema0
      ["dn", "uid"] entry_dn_uid (by rfl)).1 "dn" (Or.inl rfl),
   ((dn_never_value_bearing user0 "dc=example,dc=com" none [] schema0
      ["dn", "uid"] entry_dn_uid (by rfl)).2 ⟨"uid", ["alice"]⟩
      (by decide)).1⟩

/-- C8: when the attribute-name match produces a value vector consisting
of exactly one empty value, `get_user_attribute` collapses it to absence
instead of emitting an empty attribute value. -/
theorem singleton_empty_value_collapsed (u : User) (a b : String)
    (g : Option (List GroupDetails)) (ign : List String) (sc : Schema)
    (h : get_user_attribute_raw u a b g ign sc = .raw_values [""]) :
    get_user_attribute u a b g ign sc = .absent := by
  have himpl : get_user_attribute_raw_impl u b g ign sc (asciiLower a) =
      .raw_values [""] := h
  rw [get_user_attribute_eq]
  simp only [himpl]
  simp

/-- Witness for C8: a user whose email is the empty string resolves
`mail` to a raw singleton-empty vector, which collapses to absence. -/
theorem singleton_empty_value_collapsed_witness :
    get_user_attribute user_blank "mail" "dc=example,dc=com" none [] schema0 =
      .absent :=
  singleton_empty_value_collapsed user_blank "mail" "dc=example,dc=com" none
    [] schema0 (by rfl)

/-- C9: the per-attribute resolver panics exactly when the lower-cased
requested name is `*`; wildcard expansion always removes `*` from the
attribute list, so building a result entry never reaches the panic (it
always produces an entry). -/
theorem wildcard_panic_iff_and_entry_total (u : User) (a b : String)
    (g : Option (List GroupDetails)) (ign : List String) (sc : Schema)
    (attrs : List String) :
    (get_user_attribute u a b g ign sc = .panicked ↔ asciiLower a = "*") ∧
    "*" ∉ expand_user_attribute_wildcards attrs ∧
    ∃ e, make_ldap_search_user_result_entry u b attrs g ign sc = .ok e := by
  refine ⟨get_panicked_iff u a b g ign sc, star_not_mem_expand attrs, ?_⟩
  have hl : ∀ x ∈ expand_user_attribute_wildcards attrs,
      asciiLower x ≠ "*" := by
    intro x hx hc
    exact star_not_mem_expand attrs (asciiLower_eq_star hc ▸ hx)
  obtain ⟨pas, hp⟩ := project_all_ok hl
  refine ⟨⟨"uid=" ++ u.user_id ++ ",ou=people," ++ b, pas⟩, ?_⟩
  show Except.map
      (fun pas =>
        (⟨"uid=" ++ u.user_id ++ ",ou=people," ++ b, pas⟩ :
          LdapSearchResultEntry))
      (project_all u b g ign sc (expand_user_attribute_wildcards attrs)) = _
  rw [hp]
  rfl

/-- Witness for C9: resolving a literal `*` panics. -/
theorem wildcard_panic_iff_and_entry_total_witness :
    get_user_attribute user0 "*" "dc=example,dc=com" none [] schema0 =
      .panicked :=
  (wildcard_panic_iff_and_entry_total user0 "*" "dc=example,dc=com" none []
    schema0 []).1.mpr rfl

/-- C10: only the exact lower-cased field name `dn` triggers
distinguished-name parsing in equality translation: an equality filter on
`distinguishedName` goes through the general field mapping and degrades
to constant-false for every value (it never parses the value), even
though the presence check accepts both `dn` and `distinguishedName` and
the attribute projector resolves both to no value. -/
theorem equality_distinguishedname_no_dn_parsing (info : LdapInfo)
    (value : String) (u : User) (b : String) (g : Option (List GroupDetails))
    (ign : List String) (sc : Schema) :
    convert_user_filter info (.Equality "distinguishedName" value) =
      .ok .FalseFilter ∧
    convert_user_filter info (.Present "distinguishedName") =
      .ok .TrueFilter ∧
    convert_user_filter info (.Present "dn") = .ok .TrueFilter ∧
    get_user_attribute u "distinguishedName" b g ign sc = .absent ∧
    get_user_attribute u "dn" b g ign sc = .absent :=
  ⟨rfl, rfl, rfl, rfl, rfl⟩
